import Mathlib

/-!
Verification of the Shopify-insights scraper (`app.py`).

Shallow embedding of the scraping and aggregation logic of `app.py`
(FastAPI service "Shopify Insights (No API)").  HTTP fetches are modelled
as oracles (functions from path/query to an optional parsed response);
HTML documents are modelled as records holding exactly the attributes the
scrapers read (anchor hrefs, title attributes, visible text, image alt
text, script payloads, ...).  Python string methods (`strip`, `replace`,
`in`, `startswith`, sorting) are re-implemented structurally over
`List Char` so that every definition evaluates inside the kernel.
-/

/- ============================================================
   Python string primitives, modelled over `List Char`
   ============================================================ -/

/-- Prefix test on character lists (`str.startswith`). -/
def isPrefixList : List Char → List Char → Bool
  | [], _ => true
  | _ :: _, [] => false
  | p :: ps, c :: cs => p = c && isPrefixList ps cs

/-- Substring test on character lists (Python `pat in s`, for non-empty `pat`). -/
def containsList (pat : List Char) : List Char → Bool
  | [] => isPrefixList pat []
  | c :: cs => isPrefixList pat (c :: cs) || containsList pat cs

/-- Python `pat in s` (substring containment). -/
def strContains (s pat : String) : Bool := containsList pat.data s.data

/-- The `s.startswith(pat)`. -/
def pyStartsWith (s pat : String) : Bool := isPrefixList pat.data s.data

/-- The `s.endswith(pat)`. -/
def pyEndsWith (s pat : String) : Bool := isPrefixList pat.data.reverse s.data.reverse

def trimList (l : List Char) : List Char :=
  ((l.dropWhile Char.isWhitespace).reverse.dropWhile Char.isWhitespace).reverse

/-- Python `str.strip()`: drop leading and trailing whitespace. -/
def pyStrip (s : String) : String := ⟨trimList s.data⟩

/-- One step of `str.replace`: fuelled so the recursion is structural
(the fuel is the length of the subject string, which suffices because the
patterns replaced in `app.py` are non-empty). -/
def replaceFuel (pat repl : List Char) : Nat → List Char → List Char
  | 0, s => s
  | _ + 1, [] => []
  | fuel + 1, c :: cs =>
    if isPrefixList pat (c :: cs) then
      repl ++ replaceFuel pat repl fuel (List.drop (pat.length - 1) cs)
    else
      c :: replaceFuel pat repl fuel cs

/-- Python `s.replace(pat, repl)` (all occurrences, left to right). -/
def pyReplace (s pat repl : String) : String :=
  if pat.data = [] then s else ⟨replaceFuel pat.data repl.data s.data.length s.data⟩

/-- Split into whitespace-separated words (Python `str.split()` with no
argument: runs of whitespace separate, no empty words). -/
def wordsAux (cur : List Char) : List Char → List (List Char)
  | [] => if cur = [] then [] else [cur.reverse]
  | c :: cs =>
    if c.isWhitespace then
      if cur = [] then wordsAux [] cs else cur.reverse :: wordsAux [] cs
    else
      wordsAux (c :: cur) cs

/-- The `" ".join(s.split())[:n]` — `text_excerpt` from `app.py`. -/
def text_excerpt (s : String) (n : Nat := 800) : String :=
  ⟨(List.intercalate [' '] (wordsAux [] s.data)).take n⟩

/-- Python truthiness of an optional string (`None` and `""` are falsy). -/
def pyTruthy : Option String → Bool
  | some s => s ≠ ""
  | none => false

/-- Lexicographic (code-point) comparison of character lists; this is how
CPython compares `str` values, used by `sorted`. -/
def lexLt : List Char → List Char → Bool
  | [], [] => false
  | [], _ :: _ => true
  | _ :: _, [] => false
  | a :: as, b :: bs => if a < b then true else if a = b then lexLt as bs else false

/-- Python string `<`. -/
def strLt (a b : String) : Bool := lexLt a.data b.data

/-- Insert into a strictly `strLt`-sorted duplicate-free list, keeping it so. -/
def insSorted (x : String) : List String → List String
  | [] => [x]
  | y :: ys => if strLt x y then x :: y :: ys else if x = y then y :: ys else y :: insSorted x ys

/-- Python `sorted(set(l))` for lists of strings: the strictly sorted
duplicate-free list with the same members. -/
def sortedSet (l : List String) : List String := l.foldr insSorted []

/- ============================================================
   URL helpers (`urljoin`, `absolutize`, `normalize_root`)
   ============================================================ -/

/-- Model of `urllib.parse.urljoin` at the precision the claims need: an
absolute reference (one containing `"://"`) replaces the base, anything
else is resolved against the base by concatenation, and an empty
reference returns the base. -/
def urljoin (base rel : String) : String :=
  if rel = "" then base else if strContains rel "://" then rel else base ++ rel

/-- The `absolutize` from `app.py`: `urljoin(base, href) if href else None`. -/
def absolutize (base : String) : Option String → Option String
  | some h => if h = "" then none else some (urljoin base h)
  | none => none

/- ============================================================
   Document and page models
   ============================================================ -/

/-- An `<a href=...>` element as the scrapers read it: the raw `href`
attribute, the host of the href (`urlparse(href).netloc`, abstracted as a
field), the `title` attribute, the visible text
(`get_text(" ", strip=True)`), and the `alt` of the first embedded
`<img>` (absent when there is no image or it has no `alt`). -/
structure Anchor where
  href : String
  host : String
  titleAttr : Option String
  text : String
  imgAlt : Option String
deriving DecidableEq, Repr

/-- A fetched HTML document as read by the home-page scrapers. -/
structure Doc where
  title : Option String
  ogSiteName : Option String
  anchors : List Anchor
deriving DecidableEq, Repr

/- ============================================================
   Schemas (`Product`, `Policy`, `FAQItem`, `BrandContext`, ...)
   ============================================================ -/

/-- The `Product` pydantic model.  Prices (Python floats produced by
`float(...)`) are modelled as rationals. -/
structure Product where
  title : String
  url : Option String := none
  price : Option ℚ := none
  image : Option String := none
deriving DecidableEq, Repr

/-- The `Policy` pydantic model. -/
structure Policy where
  type : String
  url : Option String := none
  excerpt : Option String := none
deriving DecidableEq, Repr

/-- The `FAQItem` pydantic model. -/
structure FAQItem where
  question : String
  answer : String
  url : Option String := none
deriving DecidableEq, Repr

/-- A value of the `contact` mapping
(`Optional[Union[List[str], str]]`, without the outer `Optional`). -/
inductive CVal where
  | strs (l : List String)
  | str (s : String)
deriving DecidableEq, Repr

/-- The `BrandContext` pydantic model.  The `social`, `contact` and
`important_links` dicts are modelled as association lists so that the
key set is observable. -/
structure BrandContext where
  store_url : String
  brand_name : Option String := none
  hero_products : List Product := []
  catalog : List Product := []
  policies : List Policy := []
  faqs : List FAQItem := []
  social : List (String × String) := []
  contact : List (String × Option CVal) := []
  about_text : Option String := none
  important_links : List (String × Option String) := []
  fetched_at : String
deriving DecidableEq, Repr

/-- The `CompetitorResult` pydantic model. -/
structure CompetitorResult where
  brand : BrandContext
  competitors : List BrandContext := []
deriving DecidableEq, Repr

/-- A contact page as `scrape_contact` reads it: the `EMAIL_RE` /
`PHONE_RE` matches of the page text (regex matching abstracted as the
page's match lists) and the `href`s of its anchors. -/
structure CPage where
  textEmails : List String
  textPhones : List String
  anchors : List String
deriving DecidableEq, Repr

/-- One `mainEntity` entry of a JSON-LD `FAQPage`: its `name` and the
`text` of its `acceptedAnswer` (absent when the `acceptedAnswer` is
missing, not a mapping, or has no `text`). -/
structure LDEntry where
  name : Option String
  answerText : Option String
deriving DecidableEq, Repr

/-- The payload of one `<script type="application/ld+json">` element as
`scrape_faqs` sees it after `json.loads`: a parse failure, a parse that
is not a dict with `@type == "FAQPage"`, or a `FAQPage` with its
`mainEntity` list. -/
inductive ScriptData where
  | invalid
  | notFaqPage
  | faqPage (mainEntity : List LDEntry)
deriving DecidableEq, Repr

/-- A `<details>` element: its `<summary>` text (absent when there is no
summary) and its full visible text. -/
structure DetailsEl where
  summary : Option String
  text : String
deriving DecidableEq, Repr

/-- A FAQ candidate page: its JSON-LD scripts and `<details>` elements. -/
structure FPage where
  scripts : List ScriptData
  details : List DetailsEl
deriving DecidableEq, Repr

/-- One variant of a catalog item (only its `price` field is read). -/
structure Variant where
  price : Option String
deriving DecidableEq, Repr

/-- One item of a `/products.json` page. `imageSrc` is the `src` of the
item's `image` entry (absent when `image` is missing/falsy or has no
truthy `src`). -/
structure CatItem where
  title : Option String
  handle : Option String
  imageSrc : Option String
  variants : List Variant
deriving DecidableEq, Repr

/-- An HTTP client bound to one store, as an oracle bundle: each field
models the response of the corresponding fetch in `app.py` (`none` /
`false` = non-200 status, network error, or parse failure — `app.py`
swallows all of these identically). -/
structure Client where
  /-- The `fetch_html(client, base, "/")`: the parsed home page. -/
  home : Option Doc
  /-- The `fetch_html` for the contact paths. -/
  contactPage : String → Option CPage
  /-- The `fetch_html` for the FAQ paths. -/
  faqPage : String → Option FPage
  /-- The `fetch_html` for the important-link paths (only resolution is read). -/
  linkPage : String → Bool
  /-- The `fetch_html` + `get_text` for the about paths. -/
  aboutPage : String → Option String
  /-- The `fetch_html` + `get_text` for the policy paths. -/
  policyPage : String → Option String
  /-- The `client.get("/products.json?limit=250&page={n}")`: `none` is a
  request error, otherwise the status and (if `r.json()` succeeded) the
  `products` list of the body. -/
  catalogResp : Nat → Option (Nat × Option (List CatItem))
  /-- Step budget for the (source-unbounded) pagination loop. -/
  catalogFuel : Nat
  /-- The `datetime.utcnow().isoformat() + "Z"`. -/
  fetchedAt : String

/- ============================================================
   Scrapers
   ============================================================ -/

/-- The `scrape_brand_name`: the page title up to the first `"|"` (stripped),
else the `og:site_name` meta content. -/
def scrape_brand_name : Option Doc → Option String
  | none => none
  | some d =>
    match d.title with
    | some t =>
      if t ≠ "" then some (pyStrip ⟨(pyStrip t).data.takeWhile (· ≠ '|')⟩)
      else match d.ogSiteName with
           | some c => if c ≠ "" then some (pyStrip c) else none
           | none => none
    | none =>
      match d.ogSiteName with
      | some c => if c ≠ "" then some (pyStrip c) else none
      | none => none

/-- The title an anchor yields in `scrape_hero_products`:
`(a.get("title") or a.get_text(" ", strip=True) or "").strip()`, falling
back to the stripped `alt` of the anchor's first image when that is
empty; `none` when no non-empty title results. -/
def heroTitle (a : Anchor) : Option String :=
  let t0 : String :=
    match a.titleAttr with
    | some t => if t ≠ "" then t else a.text
    | none => a.text
  let t1 := pyStrip t0
  if t1 ≠ "" then some t1
  else
    match a.imgAlt with
    | some alt => if alt ≠ "" then (if pyStrip alt ≠ "" then some (pyStrip alt) else none) else none
    | none => none

/-- The `Product` an anchor contributes (before URL de-duplication and
the 8-item cap): absolutized URL plus `heroTitle`. -/
def heroOf (base : String) (a : Anchor) : Option Product :=
  match absolutize base (some a.href) with
  | none => none
  | some href => (heroTitle a).map fun t => { title := t, url := some href }

/-- The anchor loop of `scrape_hero_products` (`seen` is the set of
already-emitted absolute URLs, `out` the emitted products). -/
def heroLoop (base : String) : List Anchor → List String → List Product → List Product
  | [], _, out => out
  | a :: rest, seen, out =>
    match absolutize base (some a.href) with
    | none => heroLoop base rest seen out
    | some href =>
      if href ∈ seen then heroLoop base rest seen out
      else
        match heroTitle a with
        | none => if 8 ≤ out.length then out else heroLoop base rest seen out
        | some t =>
          let out' := out ++ [{ title := t, url := some href : Product }]
          if 8 ≤ out'.length then out' else heroLoop base rest (href :: seen) out'

/-- The `scrape_hero_products`: iterate the anchors matching
`a[href*="/products/"]` in document order. -/
def scrape_hero_products (base : String) : Option Doc → List Product
  | none => []
  | some doc =>
    heroLoop base (doc.anchors.filter fun a => strContains a.href "/products/") [] []

/-- Decimal value `sign * (ip + fp / 10^fl)` (integer part, fraction
digits value, fraction length). -/
def decToRat (sign : ℤ) (ip fp fl : ℕ) : ℚ :=
  (sign : ℚ) * ((ip : ℚ) + (fp : ℚ) / (10 : ℚ) ^ fl)

/-- Value of a non-empty digit string. -/
def digitsVal : List Char → Option ℕ
  | [] => some 0
  | c :: cs =>
    if c.isDigit then
      (digitsVal cs).map fun v => (c.toNat - '0'.toNat) * 10 ^ cs.length + v
    else none

/-- Model of Python `float(s)` on the price strings `app.py` parses:
optional surrounding whitespace, optional sign, decimal digits with an
optional fractional part (`"12"`, `"12.99"`, `"12."`, `".5"`).
Exponents and the `inf`/`nan` forms are omitted; every string outside
this grammar yields `none` (a `ValueError` in the source). -/
def parsePrice (s : String) : Option ℚ :=
  let t := trimList s.data
  let (sign, rest) : ℤ × List Char :=
    match t with
    | '-' :: r => (-1, r)
    | '+' :: r => (1, r)
    | r => (1, r)
  let ipart := rest.takeWhile (· ≠ '.')
  let rest' := rest.drop ipart.length
  match rest' with
  | [] =>
    match digitsVal ipart with
    | some v => if ipart = [] then none else some (decToRat sign v 0 0)
    | none => none
  | '.' :: fpart =>
    if ipart = [] ∧ fpart = [] then none
    else
      match digitsVal ipart, digitsVal fpart with
      | some iv, some fv => some (decToRat sign iv fv fpart.length)
      | _, _ => none
  | _ => none

/-- The `Product` built for one `/products.json` item in `scrape_catalog`. -/
def itemToProduct (base : String) (it : CatItem) : Product :=
  { title := pyStrip ((it.title).getD "")
    url := if pyTruthy it.handle then absolutize base ("/products/" ++ it.handle.getD "") else none
    price :=
      match it.variants.head? with
      | some v0 => if pyTruthy v0.price then parsePrice (v0.price.getD "") else none
      | none => none
    image := if pyTruthy it.imageSrc then absolutize base it.imageSrc else none }

/-- The `while True` pagination loop of `scrape_catalog`, fuelled (the
source loop is unbounded; termination claims are phrased as
fuel-independence).  Returns the accumulated products and the list of
page numbers requested. -/
def catalogLoop (resp : Nat → Option (Nat × Option (List CatItem))) (base : String) :
    Nat → Nat → List Product × List Nat
  | 0, _ => ([], [])
  | fuel + 1, page =>
    match resp page with
    | none => ([], [page])
    | some (status, body) =>
      if status ≠ 200 then ([], [page])
      else
        match body with
        | none => ([], [page])
        | some items =>
          if items = [] then ([], [page])
          else
            let r := catalogLoop resp base fuel (page + 1)
            (items.map (itemToProduct base) ++ r.1, page :: r.2)

/-- The `scrape_catalog`: paginate `/products.json` starting at page 1. -/
def scrape_catalog (resp : Nat → Option (Nat × Option (List CatItem))) (base : String)
    (fuel : Nat) : List Product :=
  (catalogLoop resp base fuel 1).1

/-- The `(type, path)` table of `scrape_policies`. -/
def policyPaths : List (String × String) :=
  [("privacy", "/policies/privacy-policy"),
   ("refund", "/policies/refund-policy"),
   ("return", "/policies/return-policy"),
   ("shipping", "/policies/shipping-policy"),
   ("terms", "/policies/terms-of-service")]

/-- The `scrape_policies`: one `Policy` per resolving policy path. -/
def scrape_policies (fetch : String → Option String) (base : String) : List Policy :=
  policyPaths.foldr
    (fun pp acc =>
      match fetch pp.2 with
      | some txt => { type := pp.1, url := some (urljoin base pp.2),
                      excerpt := some (text_excerpt txt) } :: acc
      | none => acc)
    []

/-- The candidate paths of `scrape_faqs`. -/
def faqPaths : List String := ["/pages/faq", "/pages/faqs", "/pages/help", "/pages/support"]

/-- The FAQ items one JSON-LD script contributes. -/
def scriptFaqs (base path : String) : ScriptData → List FAQItem
  | .faqPage ents =>
    ents.filterMap fun e =>
      let q := pyStrip (e.name.getD "")
      let a := pyStrip (e.answerText.getD "")
      if q ≠ "" ∧ a ≠ "" then some { question := q, answer := a, url := some (urljoin base path) }
      else none
  | _ => []

/-- The JSON-LD (`FAQPage`) items of a page, in script order. -/
def ldFaqs (base path : String) (pg : FPage) : List FAQItem :=
  pg.scripts.foldr (fun s acc => scriptFaqs base path s ++ acc) []

/-- The `<details>`/`<summary>` items of a page, in document order. -/
def detailFaqs (base path : String) (pg : FPage) : List FAQItem :=
  pg.details.filterMap fun det =>
    let q := pyStrip (det.summary.getD "")
    let a := det.text
    if q ≠ "" ∧ a ≠ "" then some { question := q, answer := a, url := some (urljoin base path) }
    else none

/-- All FAQ items a single page yields: JSON-LD items first, then
`<details>` items — exactly the append order of the two loops in
`scrape_faqs`. -/
def pageFaqs (base path : String) (pg : FPage) : List FAQItem :=
  ldFaqs base path pg ++ detailFaqs base path pg

/-- The path loop of `scrape_faqs`: skip unresolved pages and pages with
no FAQ items, return the first non-empty item list. -/
def faqGo (fetch : String → Option FPage) (base : String) : List String → List FAQItem
  | [] => []
  | p :: rest =>
    match fetch p with
    | none => faqGo fetch base rest
    | some pg =>
      let faqs := pageFaqs base p pg
      if faqs = [] then faqGo fetch base rest else faqs

/-- The `scrape_faqs`. -/
def scrape_faqs (fetch : String → Option FPage) (base : String) : List FAQItem :=
  faqGo fetch base faqPaths

/-- The `SOCIAL_MAP` table, in source order. -/
def SOCIAL_MAP : List (String × String) :=
  [("instagram.com", "instagram"), ("facebook.com", "facebook"), ("x.com", "twitter"),
   ("twitter.com", "twitter"), ("tiktok.com", "tiktok"), ("youtube.com", "youtube"),
   ("youtu.be", "youtube"), ("pinterest.com", "pinterest"), ("linkedin.com", "linkedin")]

/-- The `classify_social`: first `SOCIAL_MAP` entry whose domain occurs in the
lowercased host of the link. -/
def classify_social (host : String) : Option String :=
  (SOCIAL_MAP.find? fun dk => strContains ⟨host.data.map Char.toLower⟩ dk.1).map (·.2)

/-- The `scrape_social`: first URL seen per platform, scanning all anchors. -/
def scrape_social : Option Doc → List (String × String)
  | none => []
  | some d =>
    d.anchors.foldl
      (fun out a =>
        match classify_social a.host with
        | some key => if (out.lookup key).isSome then out else out ++ [(key, a.href)]
        | none => out)
      []

/-- The candidate paths of `scrape_contact`. -/
def contactPaths : List String := ["/pages/contact", "/pages/contact-us", "/contact"]

/-- The e-mail strings one contact page contributes: regex matches of the
page text, then `mailto:` anchors with the prefix removed and stripped. -/
def pageEmails (pg : CPage) : List String :=
  pg.textEmails ++
    (pg.anchors.filter (fun h => pyStartsWith h "mailto:")).map
      (fun h => pyStrip (pyReplace h "mailto:" ""))

/-- The phone strings one contact page contributes. -/
def pagePhones (pg : CPage) : List String :=
  pg.textPhones ++
    (pg.anchors.filter (fun h => pyStartsWith h "tel:")).map
      (fun h => pyStrip (pyReplace h "tel:" ""))

/-- The path loop of `scrape_contact`: the first resolving page
contributes everything, then the loop breaks. -/
def contactLoop (fetch : String → Option CPage) (base : String) :
    List String → List String × List String × Option String
  | [] => ([], [], none)
  | p :: rest =>
    match fetch p with
    | none => contactLoop fetch base rest
    | some pg => (pageEmails pg, pagePhones pg, some (urljoin base p))

/-- The `sorted(set(l)) or None`. -/
def toOptVal (l : List String) : Option CVal :=
  match sortedSet l with
  | [] => none
  | x :: xs => some (.strs (x :: xs))

/-- The `scrape_contact`. -/
def scrape_contact (fetch : String → Option CPage) (base : String) :
    List (String × Option CVal) :=
  let r := contactLoop fetch base contactPaths
  [("emails", toOptVal r.1), ("phones", toOptVal r.2.1), ("contact_page", (r.2.2).map .str)]

/-- The candidate paths of `scrape_about`. -/
def aboutPaths : List String := ["/pages/about", "/pages/our-story", "/pages/about-us"]

/-- The `scrape_about`: excerpt of the first resolving about page. -/
def scrape_about (fetch : String → Option String) : List String → Option String
  | [] => none
  | p :: rest =>
    match fetch p with
    | some txt => some (text_excerpt txt 1200)
    | none => scrape_about fetch rest

/-- The `(path, key)` table of `scrape_important_links`, in source order. -/
def linkPairs : List (String × String) :=
  [("/pages/track", "order_tracking"),
   ("/pages/track-order", "order_tracking"),
   ("/pages/order-tracking", "order_tracking"),
   ("/pages/contact", "contact_us"),
   ("/blogs/news", "blogs"),
   ("/blogs", "blogs")]

/-- Python dict assignment `out[key] = v` on an association list:
replace the binding if the key is present, else append it. -/
def setKey : List (String × Option String) → String → Option String → List (String × Option String)
  | [], k, v => [(k, v)]
  | (k', v') :: rest, k, v =>
    if k' = k then (k, v) :: rest else (k', v') :: setKey rest k v

/-- The `scrape_important_links`: start from the three `None` bindings and
assign `out[key] = urljoin(base, path)` for every resolving path, in
table order (no break, no first-match guard). -/
def scrape_important_links (fetch : String → Bool) (base : String) :
    List (String × Option String) :=
  linkPairs.foldl
    (fun out pk => if fetch pk.1 then setKey out pk.2 (some (urljoin base pk.1)) else out)
    [("order_tracking", none), ("contact_us", none), ("blogs", none)]

/-- The `get_brand_context`: run every scraper and assemble the record. -/
def get_brand_context (c : Client) (website_url : String) : BrandContext :=
  let base := if pyEndsWith website_url "/" then website_url else website_url ++ "/"
  { store_url := base
    brand_name := scrape_brand_name c.home
    hero_products := scrape_hero_products base c.home
    catalog := scrape_catalog c.catalogResp base c.catalogFuel
    policies := scrape_policies c.policyPage base
    faqs := scrape_faqs c.faqPage base
    social := scrape_social c.home
    contact := scrape_contact c.contactPage base
    about_text := scrape_about c.aboutPage aboutPaths
    important_links := scrape_important_links c.linkPage base
    fetched_at := c.fetchedAt }

/- ============================================================
   Competitor discovery
   ============================================================ -/

/-- An anchor href on a search-results page, pre-parsed:
whether the raw href starts with `"http"`, its `urlparse` netloc, and
its scheme. -/
structure Href where
  isHttp : Bool
  host : String
  scheme : String
deriving DecidableEq, Repr

/-- The `normalize_root` output, kept parsed: scheme + host
(the string form is `scheme ++ "://" ++ host ++ "/"`). -/
structure Root where
  scheme : String
  host : String
deriving DecidableEq, Repr

/-- The search queries built by `find_competitor_candidates`
(`if brand_name:` is Python truthiness, so `None` and `""` both take the
host-based branch). -/
def competitorQueries (brandName : Option String) (selfHost : String) : List String :=
  if pyTruthy brandName then
    let b := brandName.getD ""
    [b ++ " shopify", b ++ " competitors shopify", b ++ " similar brands shopify"]
  else
    let h := pyReplace selfHost "www." ""
    [h ++ " competitors shopify", h ++ " similar brands shopify"]

/-- The per-result-page anchor loop of `find_competitor_candidates`:
skip non-http hrefs, empty hosts, the origin's own host and
already-seen hosts; append the normalized root and break once the
candidate list has reached `cap = limit * 4`. -/
def gatherAnchors (selfHost : String) (cap : Nat) :
    List Href → List String → List Root → List String × List Root
  | [], seen, cands => (seen, cands)
  | a :: rest, seen, cands =>
    if !a.isHttp then gatherAnchors selfHost cap rest seen cands
    else if a.host = "" ∨ a.host = selfHost then gatherAnchors selfHost cap rest seen cands
    else if a.host ∈ seen then gatherAnchors selfHost cap rest seen cands
    else
      let cands' := cands ++ [{ scheme := a.scheme, host := a.host : Root }]
      if cap ≤ cands'.length then (a.host :: seen, cands')
      else gatherAnchors selfHost cap rest (a.host :: seen) cands'

/-- The query loop: fetch each search page (`none` = request error →
`continue`; non-200 → `continue`) and run the anchor loop on it. -/
def gatherAll (search : String → Option (Nat × List Href)) (selfHost : String) (cap : Nat) :
    List String → List String → List Root → List String × List Root
  | [], seen, cands => (seen, cands)
  | q :: qs, seen, cands =>
    match search q with
    | none => gatherAll search selfHost cap qs seen cands
    | some (status, anchors) =>
      if status ≠ 200 then gatherAll search selfHost cap qs seen cands
      else
        let r := gatherAnchors selfHost cap anchors seen cands
        gatherAll search selfHost cap qs r.1 r.2

/-- The candidate list `find_competitor_candidates` accumulates over all
search-result pages, before the Shopify probe. -/
def candidatesPhase (search : String → Option (Nat × List Href)) (selfHost : String)
    (brandName : Option String) (limit : Nat) : List Root :=
  (gatherAll search selfHost (limit * 4) (competitorQueries brandName selfHost) [] []).2

/-- The validation loop: probe candidates in order
(`looks_like_shopify`, with its exceptions absorbed as `false`), stop
once `limit` hosts are kept. -/
def filterLoop (isShopify : Root → Bool) (limit : Nat) : List Root → List Root → List Root
  | [], acc => acc
  | cand :: rest, acc =>
    if limit ≤ acc.length then acc
    else if isShopify cand then filterLoop isShopify limit rest (acc ++ [cand])
    else filterLoop isShopify limit rest acc

/-- The `find_competitor_candidates`: gather, validate, `[:limit]`. -/
def find_competitor_candidates (search : String → Option (Nat × List Href))
    (isShopify : Root → Bool) (selfHost : String) (brandName : Option String)
    (limit : Nat) : List Root :=
  (filterLoop isShopify limit (candidatesPhase search selfHost brandName limit) []).take limit

/- ============================================================
   Endpoints
   ============================================================ -/

/-- The `/insights` handler after a successful aggregation pass:
401 when neither catalog nor hero products are populated, else the
`BrandContext`. -/
def insights_endpoint (c : Client) (website_url : String) :
    Except (Nat × String) BrandContext :=
  let ctx := get_brand_context c website_url
  if ctx.catalog.isEmpty && ctx.hero_products.isEmpty then
    .error (401, "Website not found or not a typical Shopify storefront.")
  else .ok ctx

/-- The `/competitors` handler after a successful aggregation pass for
the queried brand.  `selfHost` models
`urlparse(normalize_root(str(brand_ctx.store_url))).netloc`; `ctxOf`
models `get_brand_context(client, cu)` per candidate (`none` = the
exception branch, which silently drops the candidate). -/
def competitors_endpoint (c : Client) (website_url selfHost : String)
    (search : String → Option (Nat × List Href)) (isShopify : Root → Bool)
    (ctxOf : Root → Option BrandContext) (limit : Nat) :
    Except (Nat × String) CompetitorResult :=
  let brand := get_brand_context c website_url
  if brand.catalog.isEmpty && brand.hero_products.isEmpty then
    .error (401, "Website not found or not a typical Shopify storefront.")
  else
    let urls := find_competitor_candidates search isShopify selfHost brand.brand_name limit
    let ctxs := urls.filterMap fun cu =>
      match ctxOf cu with
      | none => none
      | some cctx =>
        if cctx.catalog.isEmpty && cctx.hero_products.isEmpty then none else some cctx
    .ok { brand := brand, competitors := ctxs }

/- ============================================================
   Order lemmas for the Python string sort
   ============================================================ -/

theorem lexLt_trans : ∀ {a b c : List Char},
    lexLt a b = true → lexLt b c = true → lexLt a c = true := by
  intro a
  induction a with
  | nil =>
    intro b c hab hbc
    cases b with
    | nil => simp [lexLt] at hab
    | cons y ys =>
      cases c with
      | nil => simp [lexLt] at hbc
      | cons z zs => simp [lexLt]
  | cons x xs ih =>
    intro b c hab hbc
    cases b with
    | nil => simp [lexLt] at hab
    | cons y ys =>
      cases c with
      | nil => simp [lexLt] at hbc
      | cons z zs =>
        simp only [lexLt] at hab hbc ⊢
        by_cases h1 : x < y
        · by_cases h2 : y < z
          · simp [lt_trans h1 h2]
          · by_cases h3 : y = z
            · subst h3; simp [h1]
            · simp [h2, h3] at hbc
        · by_cases h4 : x = y
          · subst h4
            simp [lt_irrefl] at hab
            by_cases h2 : x < z
            · simp [h2]
            · by_cases h3 : x = z
              · subst h3
                simp [lt_irrefl] at hbc ⊢
                exact ih hab hbc
              · simp [h2, h3] at hbc
          · simp [h1, h4] at hab

theorem lexLt_irrefl : ∀ a : List Char, lexLt a a = false := by
  intro a
  induction a with
  | nil => rfl
  | cons x xs ih => simp [lexLt, lt_irrefl, ih]

theorem lexLt_total : ∀ {a b : List Char},
    lexLt a b = false → lexLt b a = false → a = b := by
  intro a
  induction a with
  | nil =>
    intro b hab _
    cases b with
    | nil => rfl
    | cons y ys => simp [lexLt] at hab
  | cons x xs ih =>
    intro b hab hba
    cases b with
    | nil => simp [lexLt] at hba
    | cons y ys =>
      simp only [lexLt] at hab hba
      by_cases h1 : x < y
      · simp [h1] at hab
      · by_cases h2 : y < x
        · simp [h2] at hba
        · have hxy : x = y := le_antisymm (not_lt.mp h2) (not_lt.mp h1)
          subst hxy
          simp [lt_irrefl] at hab hba
          rw [ih hab hba]

theorem strLt_irrefl (a : String) : strLt a a = false := lexLt_irrefl a.data

theorem strLt_trans {a b c : String} (h1 : strLt a b = true) (h2 : strLt b c = true) :
    strLt a c = true := lexLt_trans h1 h2

theorem strLt_total {a b : String} (h1 : strLt a b = false) (h2 : strLt b a = false) :
    a = b := by
  cases a; cases b
  exact congrArg String.mk (lexLt_total h1 h2)

theorem mem_insSorted {x a : String} : ∀ {l : List String},
    a ∈ insSorted x l → a = x ∨ a ∈ l := by
  intro l
  induction l with
  | nil => intro h; simpa [insSorted] using h
  | cons y ys ih =>
    intro h
    simp only [insSorted] at h
    by_cases h1 : strLt x y
    · rw [if_pos h1] at h
      rcases List.mem_cons.mp h with h | h
      · exact Or.inl h
      · exact Or.inr h
    · by_cases h2 : x = y
      · rw [if_neg h1, if_pos h2] at h
        exact Or.inr h
      · rw [if_neg h1, if_neg h2] at h
        rcases List.mem_cons.mp h with h | h
        · exact Or.inr (by simp [h])
        · rcases ih h with h' | h'
          · exact Or.inl h'
          · exact Or.inr (by simp [h'])

theorem insSorted_ne_nil (x : String) : ∀ l : List String, insSorted x l ≠ [] := by
  intro l
  cases l with
  | nil => simp [insSorted]
  | cons y ys =>
    simp only [insSorted]
    by_cases h1 : strLt x y
    · rw [if_pos h1]; simp
    · by_cases h2 : x = y
      · rw [if_neg h1, if_pos h2]; simp
      · rw [if_neg h1, if_neg h2]; simp

theorem pairwise_insSorted {x : String} : ∀ {l : List String},
    l.Pairwise (fun a b => strLt a b = true) →
    (insSorted x l).Pairwise (fun a b => strLt a b = true) := by
  intro l
  induction l with
  | nil => intro _; simp [insSorted]
  | cons y ys ih =>
    intro h
    rcases List.pairwise_cons.mp h with ⟨hy, hys⟩
    simp only [insSorted]
    by_cases h1 : strLt x y
    · rw [if_pos h1]
      refine List.pairwise_cons.mpr ⟨?_, h⟩
      intro b hb
      rcases List.mem_cons.mp hb with hb | hb
      · subst hb; exact h1
      · exact strLt_trans h1 (hy b hb)
    · by_cases h2 : x = y
      · rw [if_neg h1, if_pos h2]; exact h
      · rw [if_neg h1, if_neg h2]
        refine List.pairwise_cons.mpr ⟨?_, ih hys⟩
        intro b hb
        rcases mem_insSorted hb with hb | hb
        · subst hb
          cases h3 : strLt y b with
          | true => rfl
          | false =>
            exact absurd (strLt_total (Bool.eq_false_iff.mpr h1) h3) h2
        · exact hy b hb

theorem pairwise_sortedSet (l : List String) :
    (sortedSet l).Pairwise (fun a b => strLt a b = true) := by
  induction l with
  | nil => simp [sortedSet]
  | cons x xs ih => exact pairwise_insSorted ih

theorem nodup_of_pairwise_strLt {l : List String}
    (h : l.Pairwise (fun a b => strLt a b = true)) : l.Nodup := by
  refine h.imp ?_
  intro a b hab heq
  subst heq
  rw [strLt_irrefl] at hab
  exact Bool.noConfusion hab

/- ============================================================
   C6 — contact extraction
   ============================================================ -/

theorem contactLoop_eq_findSome (fetch : String → Option CPage) (base : String) :
    ∀ ps : List String,
      contactLoop fetch base ps =
        match ps.findSome? (fun p => (fetch p).map fun pg => (p, pg)) with
        | none => ([], [], none)
        | some (p, pg) => (pageEmails pg, pagePhones pg, some (urljoin base p)) := by
  intro ps
  induction ps with
  | nil => rfl
  | cons p rest ih =>
    simp only [contactLoop, List.findSome?_cons]
    cases h : fetch p with
    | none => simpa using ih
    | some pg => simp

/-- C6: every run of `scrape_contact` yields, for each of the `emails`
and `phones` keys, either explicit absence or a non-empty strictly
sorted duplicate-free list (never an empty list), and the whole result
is determined by the first probed path that resolves (probing stops
there). -/
theorem scrape_contact_shape (fetch : String → Option CPage) (base : String) :
    ((scrape_contact fetch base).lookup "emails" = some none ∨
      ∃ l, (scrape_contact fetch base).lookup "emails" = some (some (.strs l)) ∧
        l ≠ [] ∧ l.Pairwise (fun a b => strLt a b = true) ∧ l.Nodup) ∧
    ((scrape_contact fetch base).lookup "phones" = some none ∨
      ∃ l, (scrape_contact fetch base).lookup "phones" = some (some (.strs l)) ∧
        l ≠ [] ∧ l.Pairwise (fun a b => strLt a b = true) ∧ l.Nodup) ∧
    scrape_contact fetch base =
      (match contactPaths.findSome? (fun p => (fetch p).map fun pg => (p, pg)) with
       | none => [("emails", none), ("phones", none), ("contact_page", none)]
       | some (p, pg) =>
         [("emails", toOptVal (pageEmails pg)), ("phones", toOptVal (pagePhones pg)),
          ("contact_page", some (.str (urljoin base p)))]) := by
  refine ⟨?_, ?_, ?_⟩
  · have he : (scrape_contact fetch base).lookup "emails"
        = some (toOptVal (contactLoop fetch base contactPaths).1) := rfl
    rw [he]
    unfold toOptVal
    cases hss : sortedSet (contactLoop fetch base contactPaths).1 with
    | nil => exact Or.inl rfl
    | cons x xs =>
      refine Or.inr ⟨x :: xs, rfl, by simp, ?_, ?_⟩
      · have := pairwise_sortedSet (contactLoop fetch base contactPaths).1
        rwa [hss] at this
      · refine nodup_of_pairwise_strLt ?_
        have := pairwise_sortedSet (contactLoop fetch base contactPaths).1
        rwa [hss] at this
  · have hp : (scrape_contact fetch base).lookup "phones"
        = some (toOptVal (contactLoop fetch base contactPaths).2.1) := rfl
    rw [hp]
    unfold toOptVal
    cases hss : sortedSet (contactLoop fetch base contactPaths).2.1 with
    | nil => exact Or.inl rfl
    | cons x xs =>
      refine Or.inr ⟨x :: xs, rfl, by simp, ?_, ?_⟩
      · have := pairwise_sortedSet (contactLoop fetch base contactPaths).2.1
        rwa [hss] at this
      · refine nodup_of_pairwise_strLt ?_
        have := pairwise_sortedSet (contactLoop fetch base contactPaths).2.1
        rwa [hss] at this
  · unfold scrape_contact
    rw [contactLoop_eq_findSome]
    cases h : contactPaths.findSome? (fun p => (fetch p).map fun pg => (p, pg)) with
    | none => rfl
    | some ppg => cases ppg with | mk p pg => rfl

/- ============================================================
   C7 — FAQ extraction
   ============================================================ -/

theorem faqGo_eq_findSome (fetch : String → Option FPage) (base : String) :
    ∀ ps : List String,
      faqGo fetch base ps =
        (ps.findSome? fun p => (fetch p).bind fun pg =>
          if pageFaqs base p pg = [] then none else some (pageFaqs base p pg)).getD [] := by
  intro ps
  induction ps with
  | nil => rfl
  | cons p rest ih =>
    cases h : fetch p with
    | none =>
      have hl : faqGo fetch base (p :: rest) = faqGo fetch base rest := by
        simp only [faqGo, h]
      have hr : ((p :: rest).findSome? fun q => (fetch q).bind fun pg =>
            if pageFaqs base q pg = [] then none else some (pageFaqs base q pg))
          = (rest.findSome? fun q => (fetch q).bind fun pg =>
            if pageFaqs base q pg = [] then none else some (pageFaqs base q pg)) := by
        rw [List.findSome?_cons, h]
        rfl
      rw [hl, hr]
      exact ih
    | some pg =>
      have hb : ((some pg).bind fun q => if pageFaqs base p q = [] then none
            else some (pageFaqs base p q))
          = if pageFaqs base p pg = [] then none else some (pageFaqs base p pg) := rfl
      by_cases hf : pageFaqs base p pg = []
      · have hl : faqGo fetch base (p :: rest) = faqGo fetch base rest := by
          simp only [faqGo, h]
          rw [if_pos hf]
        have hr : ((p :: rest).findSome? fun q => (fetch q).bind fun pg =>
              if pageFaqs base q pg = [] then none else some (pageFaqs base q pg))
            = (rest.findSome? fun q => (fetch q).bind fun pg =>
              if pageFaqs base q pg = [] then none else some (pageFaqs base q pg)) := by
          rw [List.findSome?_cons, h, hb, if_pos hf]
        rw [hl, hr]
        exact ih
      · have hl : faqGo fetch base (p :: rest) = pageFaqs base p pg := by
          simp only [faqGo, h]
          rw [if_neg hf]
        have hr : ((p :: rest).findSome? fun q => (fetch q).bind fun pg =>
              if pageFaqs base q pg = [] then none else some (pageFaqs base q pg))
            = some (pageFaqs base p pg) := by
          rw [List.findSome?_cons, h, hb, if_neg hf]
        rw [hl, hr]
        rfl

/-- C7: `scrape_faqs` returns the item list of the first probed path
whose page yields any FAQ items (no merging across pages), and within a
page the structured JSON-LD `FAQPage` items come first, ahead of all
`details`/`summary` items. -/
theorem scrape_faqs_first_page_wins (fetch : String → Option FPage) (base : String) :
    scrape_faqs fetch base =
      (faqPaths.findSome? fun p => (fetch p).bind fun pg =>
        if pageFaqs base p pg = [] then none else some (pageFaqs base p pg)).getD [] ∧
    ∀ (p : String) (pg : FPage), pageFaqs base p pg = ldFaqs base p pg ++ detailFaqs base p pg := by
  exact ⟨faqGo_eq_findSome fetch base faqPaths, fun _ _ => rfl⟩

/- ============================================================
   C8 / C10 — important links and dict key sets
   ============================================================ -/

theorem lookup_setKey_self (k : String) (v : Option String) :
    ∀ l : List (String × Option String), (setKey l k v).lookup k = some v := by
  intro l
  induction l with
  | nil => simp [setKey, List.lookup]
  | cons kv rest ih =>
    obtain ⟨k', v'⟩ := kv
    simp only [setKey]
    by_cases hk : k' = k
    · rw [if_pos hk]
      simp [List.lookup]
    · rw [if_neg hk]
      simp only [List.lookup]
      have : (k == k') = false := by
        simp [beq_iff_eq]
        exact fun h => hk h.symm
      rw [this]
      exact ih

theorem lookup_setKey_ne (k k' : String) (v : Option String) (h : k' ≠ k) :
    ∀ l : List (String × Option String), (setKey l k v).lookup k' = l.lookup k' := by
  intro l
  induction l with
  | nil =>
    simp only [setKey, List.lookup]
    have : (k' == k) = false := by simp [beq_iff_eq]; exact h
    rw [this]
  | cons kv rest ih =>
    obtain ⟨k'', v''⟩ := kv
    simp only [setKey]
    by_cases hk : k'' = k
    · rw [if_pos hk]
      subst hk
      simp only [List.lookup]
      have : (k' == k'') = false := by simp [beq_iff_eq]; exact h
      rw [this]
    · rw [if_neg hk]
      simp only [List.lookup]
      cases hbe : k' == k''
      · exact ih
      · rfl

theorem setKey_keys {l : List (String × Option String)} {k : String} (v : Option String)
    (h : k ∈ l.map Prod.fst) : (setKey l k v).map Prod.fst = l.map Prod.fst := by
  induction l with
  | nil => simp at h
  | cons kv rest ih =>
    obtain ⟨k', v'⟩ := kv
    simp only [setKey]
    by_cases hk : k' = k
    · rw [if_pos hk]
      simp [hk]
    · rw [if_neg hk]
      simp only [List.map_cons]
      have hmem : k ∈ rest.map Prod.fst := by
        simp only [List.map_cons, List.mem_cons] at h
        rcases h with h | h
        · exact absurd h.symm hk
        · exact h
      rw [ih hmem]

/-- The `out[key] = urljoin(base, path)` fold of `scrape_important_links`,
characterised: the lookup of `key` is determined by the last table entry
for `key` whose path resolves, falling back to the initial binding. -/
theorem foldl_setKey_lookup (f : String → Bool) (base key : String) :
    ∀ (pairs : List (String × String)) (out : List (String × Option String)),
      ((pairs.foldl
          (fun o pk => if f pk.1 then setKey o pk.2 (some (urljoin base pk.1)) else o)
          out).lookup key)
        = match (pairs.filter fun pk => pk.2 == key && f pk.1).getLast? with
          | some pk => some (some (urljoin base pk.1))
          | none => out.lookup key := by
  intro pairs
  induction pairs with
  | nil => intro out; rfl
  | cons pk rest ih =>
    intro out
    obtain ⟨path, k⟩ := pk
    simp only [List.foldl_cons]
    cases hf : f path with
    | false =>
      rw [if_neg (by simp [hf])]
      have hfilter : ((path, k) :: rest).filter (fun pk => pk.2 == key && f pk.1)
          = rest.filter (fun pk => pk.2 == key && f pk.1) := by
        rw [List.filter_cons_of_neg]
        simp [hf]
      rw [ih out, hfilter]
    | true =>
      rw [if_pos (by simp [hf])]
      by_cases hk : k = key
      · subst hk
        have hfilter : ((path, k) :: rest).filter (fun pk => pk.2 == k && f pk.1)
            = (path, k) :: rest.filter (fun pk => pk.2 == k && f pk.1) := by
          rw [List.filter_cons_of_pos]
          simp [hf]
        rw [ih, hfilter]
        cases hrest : rest.filter (fun pk => pk.2 == k && f pk.1) with
        | nil =>
          rw [lookup_setKey_self]
          rfl
        | cons q qs =>
          rw [List.getLast?_cons_cons]
          cases hq : (q :: qs).getLast? with
          | none => simp at hq
          | some r => rfl
      · have hfilter : ((path, k) :: rest).filter (fun pk => pk.2 == key && f pk.1)
            = rest.filter (fun pk => pk.2 == key && f pk.1) := by
          rw [List.filter_cons_of_neg]
          simp [hk]
        rw [ih, hfilter]
        cases hrest : rest.filter (fun pk => pk.2 == key && f pk.1) with
        | nil => simp only [List.getLast?_nil]
                 rw [lookup_setKey_ne _ _ _ (fun h => hk h.symm)]
        | cons q qs => rfl

/-- C8 (amended): each key of `scrape_important_links` records the URL of
the **last** resolving path for that key in table order (absence when no
path for the key resolves) — the loop probes every path and a later
resolving path replaces an earlier one. -/
theorem important_links_last_wins (f : String → Bool) (base key : String)
    (hk : key ∈ ["order_tracking", "contact_us", "blogs"]) :
    (scrape_important_links f base).lookup key
      = some (((linkPairs.filter fun pk => pk.2 == key && f pk.1).getLast?).map
          fun pk => urljoin base pk.1) := by
  unfold scrape_important_links
  rw [foldl_setKey_lookup]
  cases h : (linkPairs.filter fun pk => pk.2 == key && f pk.1).getLast? with
  | some pk => rfl
  | none =>
    simp only [Option.map_none]
    fin_cases hk <;> rfl

/-- C8 counterexample: with both `/pages/track` and `/pages/track-order`
resolving, the recorded `order_tracking` URL is that of the **later**
path, not the first — first-match-wins fails. -/
theorem important_links_counterexample :
    (scrape_important_links
        (fun p => p == "/pages/track" || p == "/pages/track-order") "https://s.com").lookup
        "order_tracking"
      = some (some (urljoin "https://s.com" "/pages/track-order")) ∧
    urljoin "https://s.com" "/pages/track-order" ≠ urljoin "https://s.com" "/pages/track" := by
  exact ⟨rfl, by decide⟩

theorem links_fold_keys (f : String → Bool) (base : String) :
    ∀ (pairs : List (String × String)) (out : List (String × Option String)),
      (∀ pk ∈ pairs, pk.2 ∈ out.map Prod.fst) →
      ((pairs.foldl
          (fun o pk => if f pk.1 then setKey o pk.2 (some (urljoin base pk.1)) else o)
          out).map Prod.fst) = out.map Prod.fst := by
  intro pairs
  induction pairs with
  | nil => intro out _; rfl
  | cons pk rest ih =>
    intro out hmem
    simp only [List.foldl_cons]
    cases hf : f pk.1 with
    | false =>
      rw [if_neg (by simp [hf])]
      exact ih out fun q hq => hmem q (List.mem_cons_of_mem _ hq)
    | true =>
      rw [if_pos (by simp [hf])]
      have hkeys : (setKey out pk.2 (some (urljoin base pk.1))).map Prod.fst
          = out.map Prod.fst := setKey_keys _ (hmem pk (List.mem_cons_self _ _))
      rw [ih _ fun q hq => by rw [hkeys]; exact hmem q (List.mem_cons_of_mem _ hq), hkeys]

/-- C10: every `BrandContext` built by `get_brand_context` has a contact
mapping with exactly the keys `emails`, `phones`, `contact_page` and an
important-links mapping with exactly the keys `order_tracking`,
`contact_us`, `blogs`, in this order — absent data is a present key
bound to `none`, never an omitted key. -/
theorem brand_context_key_sets (c : Client) (website_url : String) :
    ((get_brand_context c website_url).contact).map Prod.fst
        = ["emails", "phones", "contact_page"] ∧
    ((get_brand_context c website_url).important_links).map Prod.fst
        = ["order_tracking", "contact_us", "blogs"] := by
  constructor
  · rfl
  · have h := links_fold_keys c.linkPage
      (if pyEndsWith website_url "/" then website_url else website_url ++ "/")
      linkPairs [("order_tracking", none), ("contact_us", none), ("blogs", none)]
      (by decide)
    exact h

/- ============================================================
   C1 — the /insights gate
   ============================================================ -/

/-- C1: after an aggregation pass, `/insights` returns 401 exactly when
both the catalog and the hero-product list are empty, and otherwise
returns the assembled `BrandContext` successfully. -/
theorem insights_gate (c : Client) (website_url : String) :
    (((get_brand_context c website_url).catalog = [] ∧
        (get_brand_context c website_url).hero_products = []) →
      insights_endpoint c website_url
        = .error (401, "Website not found or not a typical Shopify storefront.")) ∧
    (((get_brand_context c website_url).catalog ≠ [] ∨
        (get_brand_context c website_url).hero_products ≠ []) →
      insights_endpoint c website_url = .ok (get_brand_context c website_url)) := by
  constructor
  · rintro ⟨h1, h2⟩
    simp [insights_endpoint, h1, h2]
  · intro h
    have hcond : ((get_brand_context c website_url).catalog.isEmpty &&
        (get_brand_context c website_url).hero_products.isEmpty) = false := by
      rcases h with h | h
      · have hx : (get_brand_context c website_url).catalog.isEmpty = false := by
          cases hx : (get_brand_context c website_url).catalog.isEmpty
          · rfl
          · exact absurd (List.isEmpty_iff.mp hx) h
        simp [hx]
      · have hx : (get_brand_context c website_url).hero_products.isEmpty = false := by
          cases hx : (get_brand_context c website_url).hero_products.isEmpty
          · rfl
          · exact absurd (List.isEmpty_iff.mp hx) h
        simp [hx]
    simp [insights_endpoint, hcond]

/-- A client every one of whose fetches fails. -/
def emptyClient : Client where
  home := none
  contactPage := fun _ => none
  faqPage := fun _ => none
  linkPage := fun _ => false
  aboutPage := fun _ => none
  policyPage := fun _ => none
  catalogResp := fun _ => none
  catalogFuel := 1
  fetchedAt := "2025-01-01T00:00:00Z"

def heroAnchor : Anchor :=
  { href := "/products/tee", host := "h.com", titleAttr := some "Tee", text := "Tee",
    imgAlt := none }

def heroDoc : Doc := { title := some "Shop", ogSiteName := none, anchors := [heroAnchor] }

/-- A client whose home page carries one hero-product anchor and whose
other fetches all fail. -/
def heroClient : Client := { emptyClient with home := some heroDoc }

theorem insights_gate_witness :
    insights_endpoint emptyClient "https://e.com/"
      = .error (401, "Website not found or not a typical Shopify storefront.") ∧
    insights_endpoint heroClient "https://h.com/"
      = .ok (get_brand_context heroClient "https://h.com/") := by
  constructor
  · exact (insights_gate emptyClient "https://e.com/").1 ⟨rfl, rfl⟩
  · exact (insights_gate heroClient "https://h.com/").2 (Or.inr (by decide))

/- ============================================================
   C3 — hero-product extraction
   ============================================================ -/

theorem heroLoop_length_le (base : String) :
    ∀ (as : List Anchor) (seen : List String) (out : List Product),
      out.length < 8 → (heroLoop base as seen out).length ≤ 8 := by
  intro as
  induction as with
  | nil => intro seen out h; simpa [heroLoop] using h.le
  | cons a rest ih =>
    intro seen out h
    simp only [heroLoop]
    split
    · exact ih _ _ h
    · split
      · exact ih _ _ h
      · split
        · split
          · exact h.le
          · exact ih _ _ h
        · split
          · rename_i t0 ht0 h8
            simp only [List.length_append, List.length_singleton]
            omega
          · rename_i t0 ht0 h8
            refine ih _ _ ?_
            simp only [List.length_append, List.length_singleton] at h8 ⊢
            omega

theorem heroLoop_sublist (base : String) :
    ∀ (as : List Anchor) (seen : List String) (out : List Product),
      ∃ t, heroLoop base as seen out = out ++ t ∧ List.Sublist t (as.filterMap (heroOf base)) := by
  intro as
  induction as with
  | nil => intro seen out; exact ⟨[], by simp [heroLoop], by simp⟩
  | cons a rest ih =>
    intro seen out
    simp only [heroLoop]
    split
    · rename_i habs
      obtain ⟨t, ht, hsub⟩ := ih seen out
      refine ⟨t, ht, ?_⟩
      have hfa : heroOf base a = none := by simp [heroOf, habs]
      rw [List.filterMap_cons_none hfa]
      exact hsub
    · rename_i href habs
      split
      · obtain ⟨t, ht, hsub⟩ := ih seen out
        refine ⟨t, ht, ?_⟩
        cases hfa : heroOf base a with
        | none => rw [List.filterMap_cons_none hfa]; exact hsub
        | some b => rw [List.filterMap_cons_some hfa]; exact hsub.cons b
      · split
        · rename_i ht0
          have hfa : heroOf base a = none := by simp [heroOf, habs, ht0]
          split
          · exact ⟨[], by simp, List.nil_sublist _⟩
          · obtain ⟨t, hteq, hsub⟩ := ih seen out
            refine ⟨t, hteq, ?_⟩
            rw [List.filterMap_cons_none hfa]
            exact hsub
        · rename_i t0 ht0
          have hfa : heroOf base a = some { title := t0, url := some href } := by
            simp [heroOf, habs, ht0]
          split
          · refine ⟨[{ title := t0, url := some href }], rfl, ?_⟩
            rw [List.filterMap_cons_some hfa]
            exact (List.nil_sublist _).cons₂ _
          · obtain ⟨t, hteq, hsub⟩ :=
              ih (href :: seen) (out ++ [{ title := t0, url := some href }])
            refine ⟨{ title := t0, url := some href } :: t, ?_, ?_⟩
            · rw [hteq]; simp
            · rw [List.filterMap_cons_some hfa]
              exact hsub.cons₂ _

theorem heroLoop_nodup (base : String) :
    ∀ (as : List Anchor) (seen : List String) (out : List Product),
      (out.map Product.url).Nodup →
      (∀ p ∈ out, ∃ u, p.url = some u ∧ u ∈ seen) →
      ((heroLoop base as seen out).map Product.url).Nodup := by
  intro as
  induction as with
  | nil => intro seen out h _; simpa [heroLoop] using h
  | cons a rest ih =>
    intro seen out hnd hinv
    simp only [heroLoop]
    split
    · exact ih _ _ hnd hinv
    · rename_i href habs
      split
      · exact ih _ _ hnd hinv
      · rename_i hseen
        split
        · split
          · exact hnd
          · exact ih _ _ hnd hinv
        · rename_i t0 ht0
          have hnd' : ((out ++ [{ title := t0, url := some href : Product }]).map
              Product.url).Nodup := by
            rw [List.map_append]
            refine List.Nodup.append hnd (by simp) ?_
            intro x hx hx'
            simp only [List.map_singleton, List.mem_singleton] at hx'
            subst hx'
            rcases List.mem_map.mp hx with ⟨p, hp, hpu⟩
            rcases hinv p hp with ⟨u, hu, huseen⟩
            rw [hu] at hpu
            have : u = href := by injection hpu
            subst this
            exact hseen huseen
          have hinv' : ∀ p ∈ out ++ [{ title := t0, url := some href : Product }],
              ∃ u, p.url = some u ∧ u ∈ href :: seen := by
            intro p hp
            rcases List.mem_append.mp hp with hp | hp
            · rcases hinv p hp with ⟨u, hu, huseen⟩
              exact ⟨u, hu, List.mem_cons_of_mem _ huseen⟩
            · simp only [List.mem_singleton] at hp
              subst hp
              exact ⟨href, rfl, List.mem_cons_self _ _⟩
          split
          · exact hnd'
          · exact ih _ _ hnd' hinv'

/-- C3: `scrape_hero_products` returns at most 8 products, with pairwise
distinct absolute URLs, as a subsequence (document order) of the
per-anchor products of the `a[href*="/products/"]` anchors; every
returned product comes from such an anchor via `heroOf`, whose title is
the anchor's `title` attribute, else its visible text, else the embedded
image's `alt` (each used when it strips to something non-empty), and an
anchor yielding no title (`heroTitle = none`) contributes no product. -/
theorem hero_products_spec (base : String) (doc : Doc) :
    (scrape_hero_products base (some doc)).length ≤ 8 ∧
    ((scrape_hero_products base (some doc)).map Product.url).Nodup ∧
    List.Sublist (scrape_hero_products base (some doc))
      ((doc.anchors.filter fun a => strContains a.href "/products/").filterMap (heroOf base)) ∧
    (∀ p ∈ scrape_hero_products base (some doc), ∃ a ∈ doc.anchors,
      strContains a.href "/products/" = true ∧ heroOf base a = some p) ∧
    (∀ a : Anchor, ∀ t, a.titleAttr = some t → pyStrip t ≠ "" →
      heroTitle a = some (pyStrip t)) ∧
    (∀ a : Anchor, a.titleAttr = none ∨ a.titleAttr = some "" → pyStrip a.text ≠ "" →
      heroTitle a = some (pyStrip a.text)) ∧
    (∀ a : Anchor, a.titleAttr = none ∨ a.titleAttr = some "" → pyStrip a.text = "" →
      heroTitle a = (match a.imgAlt with
        | some alt => if alt ≠ "" ∧ pyStrip alt ≠ "" then some (pyStrip alt) else none
        | none => none)) ∧
    (∀ a : Anchor, heroTitle a = none → heroOf base a = none) := by
  refine ⟨?_, ?_, ?_, ?_, ?_, ?_, ?_, ?_⟩
  · exact heroLoop_length_le base _ [] [] (by simp)
  · exact heroLoop_nodup base _ [] [] (by simp) (by simp)
  · obtain ⟨t, ht, hsub⟩ := heroLoop_sublist base
      (doc.anchors.filter fun a => strContains a.href "/products/") [] []
    have hsh : scrape_hero_products base (some doc)
        = heroLoop base (doc.anchors.filter fun a => strContains a.href "/products/") [] [] :=
      rfl
    rw [hsh, ht]
    simpa using hsub
  · intro p hp
    obtain ⟨t, ht, hsub⟩ := heroLoop_sublist base
      (doc.anchors.filter fun a => strContains a.href "/products/") [] []
    have hsh : scrape_hero_products base (some doc)
        = heroLoop base (doc.anchors.filter fun a => strContains a.href "/products/") [] [] :=
      rfl
    rw [hsh, ht] at hp
    simp only [List.nil_append] at hp
    have hp' := hsub.subset hp
    rcases List.mem_filterMap.mp hp' with ⟨a, ha, hfa⟩
    rcases List.mem_filter.mp ha with ⟨ha1, ha2⟩
    exact ⟨a, ha1, ha2, hfa⟩
  · intro a t hattr hne
    have htne : t ≠ "" := by
      intro he
      subst he
      exact hne rfl
    simp only [heroTitle, hattr]
    rw [if_pos htne, if_pos hne]
  · intro a hattr hne
    rcases hattr with hattr | hattr
    · simp only [heroTitle, hattr]
      rw [if_pos hne]
    · simp only [heroTitle, hattr]
      rw [if_neg (show ¬("" : String) ≠ "" by simp), if_pos hne]
  · intro a hattr hps
    have ht0 : (match a.titleAttr with
        | some t => if t ≠ "" then t else a.text
        | none => a.text) = a.text := by
      rcases hattr with hattr | hattr <;> simp [hattr]
    simp only [heroTitle, ht0]
    rw [if_neg (by simpa using hps)]
    cases halt : a.imgAlt with
    | none => rfl
    | some alt =>
      by_cases he : alt = ""
      · subst he
        simp
      · by_cases hpse : pyStrip alt = ""
        · simp [he, hpse]
        · simp [he, hpse]
  · intro a h
    cases habs : absolutize base (some a.href) with
    | none => simp [heroOf, habs]
    | some href => simp [heroOf, habs, h]

/-- An anchor whose `title` attribute carries surrounding whitespace. -/
def wsAnchor : Anchor :=
  { href := "/products/x", host := "h.com", titleAttr := some " T ", text := "",
    imgAlt := none }

theorem hero_products_spec_witness :
    (scrape_hero_products "https://h.com/" (some heroDoc)).length ≤ 8 ∧
    heroTitle wsAnchor = some (pyStrip " T ") := by
  constructor
  · exact (hero_products_spec "https://h.com/" heroDoc).1
  · exact (hero_products_spec "https://h.com/" heroDoc).2.2.2.2.1
      wsAnchor " T " rfl (by decide)

/- ============================================================
   C4 — catalog pagination
   ============================================================ -/

theorem catalogLoop_stable (resp : Nat → Option (Nat × Option (List CatItem))) (base : String)
    (k : Nat)
    (hstop : (∃ s b, resp k = some (s, b) ∧ s ≠ 200) ∨ resp k = some (200, some [])) :
    ∀ d p f, p + d = k → k + 1 - p ≤ f →
      catalogLoop resp base f p = catalogLoop resp base (k + 1 - p) p := by
  intro d
  induction d with
  | zero =>
    intro p f hpk hf
    have hpk' : p = k := by omega
    subst hpk'
    have h1 : p + 1 - p = 1 := by omega
    rw [h1] at hf ⊢
    obtain ⟨f', rfl⟩ : ∃ f', f = f' + 1 := ⟨f - 1, by omega⟩
    simp only [catalogLoop]
    rcases hstop with ⟨s, b, hb, hs⟩ | hb
    · simp [hb, hs]
    · simp [hb]
  | succ d ihd =>
    intro p f hpk hf
    have h1 : k + 1 - p = (k - p) + 1 := by omega
    obtain ⟨f', rfl⟩ : ∃ f', f = f' + 1 := ⟨f - 1, by omega⟩
    rw [h1]
    have hrec : catalogLoop resp base f' (p + 1)
        = catalogLoop resp base (k - p) (p + 1) := by
      have h2 : k + 1 - (p + 1) = k - p := by omega
      rw [← h2]
      exact ihd (p + 1) f' (by omega) (by omega)
    simp only [catalogLoop]
    split
    · rfl
    · split
      · rfl
      · split
        · rfl
        · split
          · rfl
          · rw [hrec]

theorem catalogLoop_mono_succ (resp : Nat → Option (Nat × Option (List CatItem)))
    (base : String) :
    ∀ (f p : Nat),
      (catalogLoop resp base f p).1.length ≤ (catalogLoop resp base (f + 1) p).1.length := by
  intro f
  induction f with
  | zero => intro p; simp [catalogLoop]
  | succ f ih =>
    intro p
    simp only [catalogLoop]
    split
    · exact le_refl _
    · split
      · exact le_refl _
      · split
        · exact le_refl _
        · split
          · exact le_refl _
          · simp only [List.length_append]
            exact Nat.add_le_add_left (ih (p + 1)) _

theorem catalogLoop_mono (resp : Nat → Option (Nat × Option (List CatItem))) (base : String)
    {f f' : Nat} (h : f ≤ f') :
    ∀ p, (catalogLoop resp base f p).1.length ≤ (catalogLoop resp base f' p).1.length := by
  induction h with
  | refl => intro p; exact le_refl _
  | step h ih =>
    intro p
    exact le_trans (ih p) (catalogLoop_mono_succ resp base _ p)

theorem catalogLoop_pages (resp : Nat → Option (Nat × Option (List CatItem))) (base : String) :
    ∀ f p, ∃ m, (catalogLoop resp base f p).2 = List.range' p m := by
  intro f
  induction f with
  | zero => intro p; exact ⟨0, rfl⟩
  | succ f ih =>
    intro p
    simp only [catalogLoop]
    split
    · exact ⟨1, rfl⟩
    · split
      · exact ⟨1, rfl⟩
      · split
        · exact ⟨1, rfl⟩
        · split
          · exact ⟨1, rfl⟩
          · obtain ⟨m, hm⟩ := ih (p + 1)
            refine ⟨m + 1, ?_⟩
            show p :: (catalogLoop resp base f (p + 1)).2 = List.range' p (m + 1)
            rw [hm]
            rfl

/-- C4: when some page `k` answers with a non-200 status or an empty
item list, the pagination loop of `scrape_catalog` stabilises at fuel
`k` (it terminates: more fuel changes nothing); the accumulated catalog
length is non-decreasing in the number of pages the loop is allowed to
consume; and the requested page numbers always form the contiguous
strictly increasing range starting at 1. -/
theorem catalog_pagination (resp : Nat → Option (Nat × Option (List CatItem))) (base : String)
    (k : Nat) (hk : 1 ≤ k)
    (hstop : (∃ s b, resp k = some (s, b) ∧ s ≠ 200) ∨ resp k = some (200, some [])) :
    (∀ fuel, k ≤ fuel → catalogLoop resp base fuel 1 = catalogLoop resp base k 1) ∧
    (∀ f f', f ≤ f' →
      (scrape_catalog resp base f).length ≤ (scrape_catalog resp base f').length) ∧
    (∀ f, ∃ m, (catalogLoop resp base f 1).2 = List.range' 1 m) := by
  refine ⟨?_, ?_, ?_⟩
  · intro fuel hfuel
    have h1 := catalogLoop_stable resp base k hstop (k - 1) 1 fuel (by omega) (by omega)
    have h2 := catalogLoop_stable resp base k hstop (k - 1) 1 k (by omega) (by omega)
    rw [h1, h2]
  · intro f f' h
    exact catalogLoop_mono resp base h 1
  · intro f
    exact catalogLoop_pages resp base f 1

def itW : CatItem := { title := some "A", handle := some "a", imageSrc := none, variants := [] }

def respW : Nat → Option (Nat × Option (List CatItem)) :=
  fun p => if p = 1 then some (200, some [itW]) else some (200, some [])

theorem catalog_pagination_witness :
    catalogLoop respW "https://s.com/" 9 1 = catalogLoop respW "https://s.com/" 2 1 ∧
    (scrape_catalog respW "https://s.com/" 1).length
      ≤ (scrape_catalog respW "https://s.com/" 3).length := by
  have h := catalog_pagination respW "https://s.com/" 2 (by decide) (Or.inr rfl)
  exact ⟨h.1 9 (by decide), h.2.1 1 3 (by decide)⟩

/- ============================================================
   C5 — price parsing
   ============================================================ -/

/-- C5: for a catalog item whose first variant carries a (truthy) price
string, the built `Product` has `price = parsePrice` of that string —
the number itself when it parses, absence when it does not — and a page
of items always yields one `Product` per item (parse failures do not
drop the item). -/
theorem catalog_price_parsing (base : String) (it : CatItem) (v : Variant)
    (hv : it.variants.head? = some v) (p : String) (hp : v.price = some p) (hne : p ≠ "") :
    (itemToProduct base it).price = parsePrice p ∧
    ∀ (resp : Nat → Option (Nat × Option (List CatItem))) (f page s : Nat)
      (items : List CatItem), resp page = some (s, some items) → s = 200 → items ≠ [] →
      (catalogLoop resp base (f + 1) page).1
        = items.map (itemToProduct base) ++ (catalogLoop resp base f (page + 1)).1 := by
  constructor
  · have h1 : (itemToProduct base it).price
        = if pyTruthy v.price then parsePrice (v.price.getD "") else none := by
      simp [itemToProduct, hv]
    rw [h1, hp]
    rw [if_pos (by simp [pyTruthy, hne])]
    rfl
  · intro resp f page s items hresp hs hi
    subst hs
    simp only [catalogLoop, hresp]
    rw [if_neg (by simp), if_neg hi]

def itP1 : CatItem :=
  { title := some "A", handle := some "a", imageSrc := none, variants := [{ price := some "12.99" }] }

def itP2 : CatItem :=
  { title := some "B", handle := some "b", imageSrc := none, variants := [{ price := some "abc" }] }

def respP : Nat → Option (Nat × Option (List CatItem)) :=
  fun p => if p = 1 then some (200, some [itP1, itP2]) else some (404, some [])

theorem catalog_price_parsing_witness :
    (itemToProduct "https://s.com/" itP1).price = some ((1299 : ℚ) / 100) ∧
    (itemToProduct "https://s.com/" itP2).price = none ∧
    scrape_catalog respP "https://s.com/" 5
      = [itemToProduct "https://s.com/" itP1, itemToProduct "https://s.com/" itP2] := by
  refine ⟨?_, ?_, rfl⟩
  · have h := (catalog_price_parsing "https://s.com/" itP1 { price := some "12.99" }
      rfl "12.99" rfl (by decide)).1
    rw [h]
    have hp : parsePrice "12.99" = some (decToRat 1 12 99 2) := rfl
    rw [hp]
    norm_num [decToRat]
  · have h := (catalog_price_parsing "https://s.com/" itP2 { price := some "abc" }
      rfl "abc" rfl (by decide)).1
    rw [h]
    rfl

/- ============================================================
   C2 — the /competitors endpoint
   ============================================================ -/

/-- C2: a successful `/competitors` response with `limit = n`
(`1 ≤ n ≤ 5`) carries at most `n` competitor entries, each of which has a
non-empty catalog or a non-empty hero-product list. -/
theorem competitors_bounded (c : Client) (website_url selfHost : String)
    (search : String → Option (Nat × List Href)) (isShopify : Root → Bool)
    (ctxOf : Root → Option BrandContext) (limit : Nat)
    (h1 : 1 ≤ limit) (h2 : limit ≤ 5) (res : CompetitorResult)
    (hres : competitors_endpoint c website_url selfHost search isShopify ctxOf limit
      = .ok res) :
    res.competitors.length ≤ limit ∧
    ∀ ctx ∈ res.competitors, ctx.catalog ≠ [] ∨ ctx.hero_products ≠ [] := by
  simp only [competitors_endpoint] at hres
  split at hres
  · exact absurd hres (by simp)
  · injection hres with hres'
    subst hres'
    constructor
    · refine le_trans (List.length_filterMap_le _ _) ?_
      unfold find_competitor_candidates
      rw [List.length_take]
      exact min_le_left _ _
    · intro ctx hctx
      rcases List.mem_filterMap.mp hctx with ⟨cu, hcu, hf⟩
      cases hco : ctxOf cu
      · rw [hco] at hf
        simp at hf
      · rename_i cctx
        rw [hco] at hf
        simp only [] at hf
        split at hf
        · simp at hf
        · rename_i hgate
          have hctx' : cctx = ctx := by
            injection hf
          subst hctx'
          by_cases hcat : cctx.catalog = []
          · refine Or.inr ?_
            intro hhero
            exact hgate (by simp [List.isEmpty_iff, hcat, hhero])
          · exact Or.inl hcat

/-- The `/competitors` response of `heroClient` against a search engine
and candidate worlds that all fail. -/
def crW : CompetitorResult :=
  { brand := get_brand_context heroClient "https://h.com/", competitors := [] }

theorem competitors_bounded_witness :
    competitors_endpoint heroClient "https://h.com/" "h.com" (fun _ => none) (fun _ => false)
        (fun _ => none) 3 = .ok crW ∧
    crW.competitors.length ≤ 3 := by
  refine ⟨rfl, ?_⟩
  exact (competitors_bounded heroClient "https://h.com/" "h.com" (fun _ => none)
    (fun _ => false) (fun _ => none) 3 (by decide) (by decide) crW rfl).1

/- ============================================================
   C9 — competitor-candidate accumulation
   ============================================================ -/

theorem gatherAnchors_inv (selfHost : String) (cap : Nat) :
    ∀ (as : List Href) (seen : List String) (cands : List Root),
      (cands.map Root.host).Nodup →
      (∀ h ∈ cands.map Root.host, h ∈ seen) →
      selfHost ∉ cands.map Root.host →
      (((gatherAnchors selfHost cap as seen cands).2.map Root.host).Nodup ∧
        (∀ h ∈ (gatherAnchors selfHost cap as seen cands).2.map Root.host,
          h ∈ (gatherAnchors selfHost cap as seen cands).1) ∧
        selfHost ∉ (gatherAnchors selfHost cap as seen cands).2.map Root.host ∧
        (∀ x ∈ seen, x ∈ (gatherAnchors selfHost cap as seen cands).1) ∧
        (gatherAnchors selfHost cap as seen cands).2.length ≤ max cap (cands.length + 1)) := by
  intro as
  induction as with
  | nil =>
    intro seen cands hnd hmem hself
    refine ⟨hnd, hmem, hself, fun x hx => hx, ?_⟩
    simp only [gatherAnchors]
    omega
  | cons a rest ih =>
    intro seen cands hnd hmem hself
    simp only [gatherAnchors]
    split
    · exact ih seen cands hnd hmem hself
    · split
      · exact ih seen cands hnd hmem hself
      · rename_i hhttp hno
        split
        · exact ih seen cands hnd hmem hself
        · rename_i hseen
          have hns : a.host ≠ selfHost := fun he => hno (Or.inr he)
          have hnotin : a.host ∉ cands.map Root.host := fun hmem' => hseen (hmem _ hmem')
          have hnd' : ((cands ++ [{ scheme := a.scheme, host := a.host : Root }]).map
              Root.host).Nodup := by
            rw [List.map_append]
            refine List.Nodup.append hnd (by simp) ?_
            intro x hx hx'
            simp only [List.map_cons, List.map_nil, List.mem_singleton] at hx'
            subst hx'
            exact hnotin hx
          have hmem' : ∀ h ∈ (cands ++ [{ scheme := a.scheme, host := a.host : Root }]).map
              Root.host, h ∈ a.host :: seen := by
            intro h hh
            rw [List.map_append] at hh
            rcases List.mem_append.mp hh with hh | hh
            · exact List.mem_cons_of_mem _ (hmem _ hh)
            · simp only [List.map_cons, List.map_nil, List.mem_singleton] at hh
              subst hh
              exact List.mem_cons_self _ _
          have hself' : selfHost ∉ (cands ++
              [{ scheme := a.scheme, host := a.host : Root }]).map Root.host := by
            rw [List.map_append]
            intro hh
            rcases List.mem_append.mp hh with hh | hh
            · exact hself hh
            · simp only [List.map_cons, List.map_nil, List.mem_singleton] at hh
              exact hns hh.symm
          split
          · rename_i hcap
            refine ⟨hnd', hmem', hself', fun x hx => List.mem_cons_of_mem _ hx, ?_⟩
            simp only [List.length_append, List.length_singleton]
            omega
          · rename_i hcap
            obtain ⟨h1, h2, h3, h4, h5⟩ := ih (a.host :: seen)
              (cands ++ [{ scheme := a.scheme, host := a.host : Root }]) hnd' hmem' hself'
            refine ⟨h1, h2, h3, fun x hx => h4 x (List.mem_cons_of_mem _ hx), ?_⟩
            simp only [List.length_append, List.length_singleton] at h5 hcap
            have hle : max cap (cands.length + 1 + 1) = cap := by
              rw [Nat.max_eq_left]
              omega
            rw [hle] at h5
            have : cap ≤ max cap (cands.length + 1) := le_max_left _ _
            omega

theorem gatherAll_inv (search : String → Option (Nat × List Href)) (selfHost : String)
    (cap : Nat) :
    ∀ (qs : List String) (seen : List String) (cands : List Root),
      (cands.map Root.host).Nodup →
      (∀ h ∈ cands.map Root.host, h ∈ seen) →
      selfHost ∉ cands.map Root.host →
      (((gatherAll search selfHost cap qs seen cands).2.map Root.host).Nodup ∧
        selfHost ∉ (gatherAll search selfHost cap qs seen cands).2.map Root.host ∧
        (gatherAll search selfHost cap qs seen cands).2.length
          ≤ max cap (cands.length + 1) + (qs.length - 1)) := by
  intro qs
  induction qs with
  | nil =>
    intro seen cands hnd hmem hself
    refine ⟨hnd, hself, ?_⟩
    simp only [gatherAll, List.length_nil]
    omega
  | cons q rest ih =>
    intro seen cands hnd hmem hself
    simp only [gatherAll]
    split
    · obtain ⟨h1, h2, h3⟩ := ih seen cands hnd hmem hself
      refine ⟨h1, h2, ?_⟩
      simp only [List.length_cons]
      omega
    · split
      · obtain ⟨h1, h2, h3⟩ := ih seen cands hnd hmem hself
        refine ⟨h1, h2, ?_⟩
        simp only [List.length_cons]
        omega
      · rename_i status anchors hsearch hstatus
        obtain ⟨g1, g2, g3, g4, g5⟩ :=
          gatherAnchors_inv selfHost cap anchors seen cands hnd hmem hself
        obtain ⟨h1, h2, h3⟩ := ih (gatherAnchors selfHost cap anchors seen cands).1
          (gatherAnchors selfHost cap anchors seen cands).2 g1 g2 g3
        refine ⟨h1, h2, ?_⟩
        cases rest with
        | nil =>
          simp only [gatherAll] at h3 ⊢
          simp only [List.length_cons, List.length_nil] at h3 ⊢
          omega
        | cons q2 rest2 =>
          have hm2 : max cap ((gatherAnchors selfHost cap anchors seen cands).2.length + 1)
              ≤ max cap (cands.length + 1) + 1 := by
            have hc : cap ≤ max cap (cands.length + 1) := le_max_left _ _
            refine max_le (by omega) (by omega)
          simp only [List.length_cons] at h3 ⊢
          omega

/-- C9 (amended): the candidate list gathered by
`find_competitor_candidates` over all search-result pages contains no
duplicate hosts and never the origin's own host; its length is bounded
by `4·limit + 2` — it can exceed `4·limit` (by one per search query
after the first), because the `4·limit` cut-off only breaks the
per-query anchor loop. -/
theorem candidates_accumulation (search : String → Option (Nat × List Href))
    (selfHost : String) (brandName : Option String) (limit : Nat) (h : 1 ≤ limit) :
    (candidatesPhase search selfHost brandName limit).length ≤ 4 * limit + 2 ∧
    ((candidatesPhase search selfHost brandName limit).map Root.host).Nodup ∧
    selfHost ∉ (candidatesPhase search selfHost brandName limit).map Root.host := by
  obtain ⟨h1, h2, h3⟩ := gatherAll_inv search selfHost (limit * 4)
    (competitorQueries brandName selfHost) [] [] (by simp) (by simp) (by simp)
  have hQ : (competitorQueries brandName selfHost).length ≤ 3 := by
    unfold competitorQueries
    split <;> simp
  have hmax : max (limit * 4) (List.length ([] : List Root) + 1) = limit * 4 := by
    rw [Nat.max_eq_left]
    simp only [List.length_nil]
    omega
  rw [hmax] at h3
  exact ⟨by unfold candidatesPhase; omega, h1, h2⟩

def hrefA : Href := { isHttp := true, host := "a.com", scheme := "https" }
def hrefB : Href := { isHttp := true, host := "b.com", scheme := "https" }
def hrefC : Href := { isHttp := true, host := "c.com", scheme := "https" }
def hrefD : Href := { isHttp := true, host := "d.com", scheme := "https" }
def hrefE : Href := { isHttp := true, host := "e.com", scheme := "https" }
def hrefX : Href := { isHttp := true, host := "x.com", scheme := "https" }

/-- A search engine whose first results page offers five fresh hosts and
whose second offers one more. -/
def searchC9 : String → Option (Nat × List Href) := fun q =>
  if q = "B shopify" then some (200, [hrefA, hrefB, hrefC, hrefD, hrefX])
  else if q = "B competitors shopify" then some (200, [hrefE]) else none

/-- C9 counterexample: with `limit = 1` the accumulated candidate list
reaches 5 entries — more than `4 × 1` — because the cut-off only breaks
the anchor loop of the current query and the next query appends again. -/
theorem candidates_accumulation_counterexample :
    ¬ ((candidatesPhase searchC9 "me.com" (some "B") 1).length ≤ 4 * 1) := by
  decide

theorem candidates_accumulation_witness :
    (candidatesPhase searchC9 "me.com" (some "B") 1).length ≤ 4 * 1 + 2 ∧
    ((candidatesPhase searchC9 "me.com" (some "B") 1).map Root.host).Nodup := by
  have h := candidates_accumulation searchC9 "me.com" (some "B") 1 (by decide)
  exact ⟨h.1, h.2.1⟩

theorem important_links_last_wins_witness :
    (scrape_important_links (fun _ => false) "https://s.com/").lookup "blogs"
      = some (((linkPairs.filter fun pk => pk.2 == "blogs" && (fun _ => false) pk.1).getLast?).map
          fun pk => urljoin "https://s.com/" pk.1) :=
  important_links_last_wins (fun _ => false) "https://s.com/" "blogs" (by decide)
